import Mathlib

/-!
Verification of the Aegis file-integrity monitor's core pipeline against its
specification: the comparator (`src/visualizer.py`, `visualize_integrity_check`),
the baseline store (`src/agent.py`, `save_baseline`/`load_baseline`), the check
flow (`src/agent.py`, `main`, `--check` branch), the snapshot/hashing loop of
the visual demo (`src/visualizer.py`, `animate_hashing_process`) and the live
aggregator (`src/live_monitor.py`, `AegisFileWatcher`).

Python dictionaries are embedded as association lists `List (String × α)`;
`dict.get` and `dict[k]` become `dictGet` (first-match lookup, `none` when the
key is absent).  JSON scalar values that occur in baseline records are embedded
as `JVal` (string / int / float, the float as `Rat`).  Filesystem and clock
inputs are passed explicitly.
-/

namespace Aegis

/-- Scalar JSON values stored in a baseline record entry
(`"path"`/`"hash"` are strings, `"size"` ints, `"mtime"` floats). -/
inductive JVal where
  | s (v : String)
  | i (v : Int)
  | q (v : Rat)
deriving DecidableEq, Repr

/-- A Python `dict` with string keys, embedded as an association list. -/
abbrev PyDict (α : Type) : Type := List (String × α)

/-- One baseline record as the Python code holds it: a `dict` of scalar fields. -/
abbrev RecordDict : Type := PyDict JVal

/-- A baseline / snapshot as the Python code holds it: a `dict` mapping
the file path to its record `dict`. -/
abbrev Baseline : Type := PyDict RecordDict

/-- Embedding of `d.get(k)` / `d[k]`: first matching key, `none` when absent. -/
def dictGet {α : Type} (d : PyDict α) (k : String) : Option α :=
  (d.find? (fun p => p.fst == k)).map Prod.snd

/-- Embedding of `d.keys()`. -/
def pyKeys {α : Type} (d : PyDict α) : List String := d.map Prod.fst

/-- Python string comparison on code points, char-list lexicographic. -/
def charsLe : List Char → List Char → Bool
  | [], _ => true
  | _ :: _, [] => false
  | a :: as, b :: bs =>
    if a.toNat < b.toNat then true
    else if b.toNat < a.toNat then false
    else charsLe as bs

/-- Embedding of `a <= b` on Python strings. -/
def strLe (a b : String) : Bool := charsLe a.data b.data

/-- Stable insertion of a string into a sorted list (helper for `sorted`). -/
def insertSorted (x : String) : List String → List String
  | [] => [x]
  | y :: ys => if strLe x y then x :: y :: ys else y :: insertSorted x ys

/-- Python `sorted` on a list of strings (ascending, code-point order). -/
def sortStrings (l : List String) : List String := l.foldr insertSorted []

/-- Embedding of `old_baseline[k].get('hash')`: the `"hash"` entry of the record stored at
key `k`, `none` when either the key or the field is absent. -/
def hashGet (b : Baseline) (k : String) : Option JVal :=
  (dictGet b k).bind (fun r => dictGet r "hash")

/-- The three path lists computed by `visualize_integrity_check`. -/
structure IntegrityViz where
  created : List String
  deleted : List String
  modified : List String
deriving DecidableEq, Repr

/-- The comparator of `src/visualizer.py` (`visualize_integrity_check`,
lines 189–209), classification part; rendering is presentation and dropped.
`set(...)` is embedded as `dedup` (dict keys are already unique in Python),
set difference and intersection as filters, `sorted` as `sortStrings`. -/
def visualize_integrity_check (old_baseline new_baseline : Baseline) : IntegrityViz :=
  let old_keys := (pyKeys old_baseline).dedup
  let new_keys := (pyKeys new_baseline).dedup
  let created := sortStrings (new_keys.filter (fun k => !(old_keys.contains k)))
  let deleted := sortStrings (old_keys.filter (fun k => !(new_keys.contains k)))
  let common_keys := old_keys.filter (fun k => new_keys.contains k)
  let modified := sortStrings (common_keys.filter (fun k =>
    decide (hashGet old_baseline k ≠ hashGet new_baseline k)))
  ⟨created, deleted, modified⟩

/-- Modelled from the spec: the `FileRecord` dataclass lives in
`engine/baseline_engine.py`, which is not under `src/`; its field set
`path, hash (hex string), size (integer), mtime (numeric)` is §3/§6 of the
spec and matches the record dicts built in `src/visualizer.py`. -/
structure FileRecord where
  path : String
  hash : String
  size : Int
  mtime : Rat
deriving DecidableEq, Repr

/-- Embedding of `dataclasses.asdict` on a `FileRecord`. -/
def asdict (r : FileRecord) : RecordDict :=
  [("path", .s r.path), ("hash", .s r.hash), ("size", .i r.size), ("mtime", .q r.mtime)]

/-- A snapshot as a path → `FileRecord` mapping (the shape
`baseline_engine.create_baseline` returns to `agent.py`). -/
abbrev Snapshot : Type := PyDict FileRecord

/-- Embedding of `{path: asdict(entry) for path, entry in data.items()}` (`src/agent.py`). -/
def toBaseline (s : Snapshot) : Baseline :=
  s.map (fun pr => (pr.1, asdict pr.2))

/-! ### Lookup and sorting lemmas -/

theorem mem_insertSorted {p x : String} {l : List String} :
    p ∈ insertSorted x l ↔ p = x ∨ p ∈ l := by
  induction l with
  | nil => simp [insertSorted]
  | cons y ys ih =>
    simp only [insertSorted]
    by_cases h : strLe x y
    · simp [h]
    · simp only [h, if_neg, Bool.false_eq_true, if_false, List.mem_cons, ih]
      tauto

theorem mem_sortStrings {p : String} {l : List String} :
    p ∈ sortStrings l ↔ p ∈ l := by
  induction l with
  | nil => simp [sortStrings]
  | cons y ys ih =>
    simp only [sortStrings, List.foldr] at *
    rw [mem_insertSorted, ih]
    simp

theorem contains_iff_mem {l : List String} {a : String} :
    l.contains a = true ↔ a ∈ l := by
  induction l with
  | nil => simp
  | cons x xs ih => simp [List.contains, List.elem_cons]

theorem mem_pyKeys_cons {α : Type} {e : String × α} {es : PyDict α} {k : String} :
    k ∈ pyKeys (e :: es) ↔ k = e.1 ∨ k ∈ pyKeys es := by
  simp [pyKeys]

theorem dictGet_isSome_iff {α : Type} {d : PyDict α} {k : String} :
    (dictGet d k).isSome = true ↔ k ∈ pyKeys d := by
  induction d with
  | nil => simp [dictGet, pyKeys]
  | cons e es ih =>
    rw [mem_pyKeys_cons]
    by_cases h : e.1 == k
    · simp [dictGet, List.find?_cons, h, (eq_of_beq h).symm]
    · have hne : ¬ k = e.1 := by
        intro hk
        exact (by simpa using h : ¬ e.1 = k) hk.symm
      simp only [dictGet, List.find?_cons, h, Bool.false_eq_true, if_false]
      rw [show ((es.find? fun p => p.fst == k).map Prod.snd) = dictGet es k from rfl, ih]
      simp [hne]

theorem dictGet_eq_none_iff {α : Type} {d : PyDict α} {k : String} :
    dictGet d k = none ↔ k ∉ pyKeys d := by
  rw [← dictGet_isSome_iff]
  cases dictGet d k <;> simp

theorem dictGet_map_snd {α β : Type} (f : α → β) (l : PyDict α) (k : String) :
    dictGet (l.map (fun pr => (pr.1, f pr.2))) k = (dictGet l k).map f := by
  induction l with
  | nil => simp [dictGet]
  | cons e es ih =>
    simp only [dictGet, List.map_cons, List.find?_cons]
    by_cases h : e.1 == k
    · simp [h]
    · simpa [h, dictGet] using ih

theorem dictGet_of_mem_nodup {α : Type} {d : PyDict α} {k : String} {v : α}
    (hnd : (pyKeys d).Nodup) (hm : (k, v) ∈ d) : dictGet d k = some v := by
  induction d with
  | nil => simp at hm
  | cons e es ih =>
    simp only [pyKeys, List.map_cons, List.nodup_cons] at hnd
    rcases List.mem_cons.mp hm with he | hes
    · subst he
      simp [dictGet, List.find?_cons]
    · have hk : k ∈ pyKeys es := List.mem_map_of_mem Prod.fst hes
      have hne : ¬ e.1 == k := by
        simp only [beq_iff_eq]
        intro h
        exact hnd.1 (h ▸ hk)
      simpa [dictGet, List.find?_cons, hne] using ih hnd.2 hes

/-! ### Comparator membership characterization -/

theorem mem_viz_created {old new : Baseline} {p : String} :
    p ∈ (visualize_integrity_check old new).created ↔
      p ∈ pyKeys new ∧ p ∉ pyKeys old := by
  simp only [visualize_integrity_check, mem_sortStrings, List.mem_filter,
    List.mem_dedup, Bool.not_eq_eq_eq_not, Bool.not_true]
  constructor
  · rintro ⟨h1, h2⟩
    refine ⟨h1, fun hm => ?_⟩
    rw [show ((List.dedup (pyKeys old)).contains p = false) =
      ¬ ((List.dedup (pyKeys old)).contains p = true) from by simp] at h2
    exact h2 (contains_iff_mem.mpr (List.mem_dedup.mpr hm))
  · rintro ⟨h1, h2⟩
    refine ⟨h1, ?_⟩
    have : ¬ (List.dedup (pyKeys old)).contains p = true := by
      rw [contains_iff_mem, List.mem_dedup]
      exact h2
    simpa using this

theorem mem_viz_deleted {old new : Baseline} {p : String} :
    p ∈ (visualize_integrity_check old new).deleted ↔
      p ∈ pyKeys old ∧ p ∉ pyKeys new := by
  simp only [visualize_integrity_check, mem_sortStrings, List.mem_filter,
    List.mem_dedup, Bool.not_eq_eq_eq_not, Bool.not_true]
  constructor
  · rintro ⟨h1, h2⟩
    refine ⟨h1, fun hm => ?_⟩
    rw [show ((List.dedup (pyKeys new)).contains p = false) =
      ¬ ((List.dedup (pyKeys new)).contains p = true) from by simp] at h2
    exact h2 (contains_iff_mem.mpr (List.mem_dedup.mpr hm))
  · rintro ⟨h1, h2⟩
    refine ⟨h1, ?_⟩
    have : ¬ (List.dedup (pyKeys new)).contains p = true := by
      rw [contains_iff_mem, List.mem_dedup]
      exact h2
    simpa using this

theorem mem_viz_modified {old new : Baseline} {p : String} :
    p ∈ (visualize_integrity_check old new).modified ↔
      p ∈ pyKeys old ∧ p ∈ pyKeys new ∧ hashGet old p ≠ hashGet new p := by
  simp only [visualize_integrity_check, mem_sortStrings, List.mem_filter,
    List.mem_dedup, decide_eq_true_eq, contains_iff_mem, and_assoc]

theorem pyKeys_toBaseline (s : Snapshot) : pyKeys (toBaseline s) = pyKeys s := by
  simp only [pyKeys, toBaseline, List.map_map]
  rfl

theorem dictGet_asdict_hash (r : FileRecord) :
    dictGet (asdict r) "hash" = some (JVal.s r.hash) := rfl

theorem hashGet_toBaseline (s : Snapshot) (p : String) :
    hashGet (toBaseline s) p = (dictGet s p).map (fun r => JVal.s r.hash) := by
  rw [hashGet, toBaseline, dictGet_map_snd]
  cases dictGet s p with
  | none => rfl
  | some r => simp [dictGet_asdict_hash]

/-- C1: for every pair of snapshots `old` and `new`, the comparator
(`visualize_integrity_check`, run on their dict forms) returns
Created = paths in `new` not in `old`, Deleted = paths in `old` not in `new`,
and Modified = paths in both whose record's content hash differs; a path in
both with equal hashes lands in none of the three lists, regardless of any
size/mtime difference between the two records. -/
theorem comparator_delta_classification (old new : Snapshot) (p : String) :
    (p ∈ (visualize_integrity_check (toBaseline old) (toBaseline new)).created ↔
        p ∈ pyKeys new ∧ p ∉ pyKeys old) ∧
    (p ∈ (visualize_integrity_check (toBaseline old) (toBaseline new)).deleted ↔
        p ∈ pyKeys old ∧ p ∉ pyKeys new) ∧
    (p ∈ (visualize_integrity_check (toBaseline old) (toBaseline new)).modified ↔
        ∃ r1 r2, dictGet old p = some r1 ∧ dictGet new p = some r2 ∧ r1.hash ≠ r2.hash) ∧
    (∀ r1 r2, dictGet old p = some r1 → dictGet new p = some r2 → r1.hash = r2.hash →
        p ∉ (visualize_integrity_check (toBaseline old) (toBaseline new)).created ∧
        p ∉ (visualize_integrity_check (toBaseline old) (toBaseline new)).deleted ∧
        p ∉ (visualize_integrity_check (toBaseline old) (toBaseline new)).modified) := by
  have hko : p ∈ pyKeys old ↔ (dictGet old p).isSome = true := dictGet_isSome_iff.symm
  have hkn : p ∈ pyKeys new ↔ (dictGet new p).isSome = true := dictGet_isSome_iff.symm
  have hmod : p ∈ (visualize_integrity_check (toBaseline old) (toBaseline new)).modified ↔
      ∃ r1 r2, dictGet old p = some r1 ∧ dictGet new p = some r2 ∧ r1.hash ≠ r2.hash := by
    rw [mem_viz_modified, pyKeys_toBaseline, pyKeys_toBaseline,
      hashGet_toBaseline, hashGet_toBaseline, hko, hkn]
    cases dictGet old p with
    | none => simp
    | some r1 =>
      cases dictGet new p with
      | none => simp
      | some r2 => simp
  refine ⟨?_, ?_, hmod, ?_⟩
  · rw [mem_viz_created, pyKeys_toBaseline, pyKeys_toBaseline]
  · rw [mem_viz_deleted, pyKeys_toBaseline, pyKeys_toBaseline]
  · intro r1 r2 h1 h2 hh
    have hmo : p ∈ pyKeys old := dictGet_isSome_iff.mp (by rw [h1]; rfl)
    have hmn : p ∈ pyKeys new := dictGet_isSome_iff.mp (by rw [h2]; rfl)
    refine ⟨?_, ?_, ?_⟩
    · rw [mem_viz_created, pyKeys_toBaseline, pyKeys_toBaseline]
      intro hc
      exact hc.2 hmo
    · rw [mem_viz_deleted, pyKeys_toBaseline, pyKeys_toBaseline]
      intro hd
      exact hd.2 hmn
    · rw [hmod]
      rintro ⟨s1, s2, hs1, hs2, hne⟩
      rw [h1] at hs1
      rw [h2] at hs2
      cases hs1
      cases hs2
      exact hne hh

/-- A path present in both baselines whose looked-up hash values agree
(the implicit Unchanged class of the delta). -/
def unchangedIn (old new : Baseline) (p : String) : Prop :=
  p ∈ pyKeys old ∧ p ∈ pyKeys new ∧ hashGet old p = hashGet new p

set_option maxHeartbeats 2000000 in
/-- C2: the comparator's three output lists are pairwise disjoint, and every
path in the union of the two key sets falls in exactly one of Modified,
Deleted, Created, or Unchanged. -/
theorem comparator_delta_partition (old new : Baseline) (p : String) :
    (¬ (p ∈ (visualize_integrity_check old new).modified ∧
        p ∈ (visualize_integrity_check old new).created)) ∧
    (¬ (p ∈ (visualize_integrity_check old new).modified ∧
        p ∈ (visualize_integrity_check old new).deleted)) ∧
    (¬ (p ∈ (visualize_integrity_check old new).created ∧
        p ∈ (visualize_integrity_check old new).deleted)) ∧
    (p ∈ pyKeys old ∨ p ∈ pyKeys new →
      (p ∈ (visualize_integrity_check old new).modified ∧
        p ∉ (visualize_integrity_check old new).deleted ∧
        p ∉ (visualize_integrity_check old new).created ∧ ¬ unchangedIn old new p) ∨
      (p ∈ (visualize_integrity_check old new).deleted ∧
        p ∉ (visualize_integrity_check old new).modified ∧
        p ∉ (visualize_integrity_check old new).created ∧ ¬ unchangedIn old new p) ∨
      (p ∈ (visualize_integrity_check old new).created ∧
        p ∉ (visualize_integrity_check old new).modified ∧
        p ∉ (visualize_integrity_check old new).deleted ∧ ¬ unchangedIn old new p) ∨
      (unchangedIn old new p ∧
        p ∉ (visualize_integrity_check old new).modified ∧
        p ∉ (visualize_integrity_check old new).deleted ∧
        p ∉ (visualize_integrity_check old new).created)) := by
  rw [mem_viz_modified, mem_viz_created, mem_viz_deleted, unchangedIn]
  by_cases ho : p ∈ pyKeys old <;> by_cases hn : p ∈ pyKeys new <;>
    by_cases hh : hashGet old p = hashGet new p <;> tauto

/-- C10: the comparator reads record hashes with a defaulting lookup, so a
record with no `"hash"` field never makes it raise: for a path present in
both baselines, two hash-less records classify the path as unchanged (it
lands in none of the three lists), and exactly one hash-less record
classifies it as Modified. -/
theorem comparator_total_on_missing_hash (old new : Baseline) (p : String)
    (r1 r2 : RecordDict)
    (h1 : dictGet old p = some r1) (h2 : dictGet new p = some r2) :
    (dictGet r1 "hash" = none ∧ dictGet r2 "hash" = none →
      p ∉ (visualize_integrity_check old new).modified ∧
      p ∉ (visualize_integrity_check old new).created ∧
      p ∉ (visualize_integrity_check old new).deleted) ∧
    (dictGet r1 "hash" = none ∧ (dictGet r2 "hash").isSome = true →
      p ∈ (visualize_integrity_check old new).modified) ∧
    ((dictGet r1 "hash").isSome = true ∧ dictGet r2 "hash" = none →
      p ∈ (visualize_integrity_check old new).modified) := by
  have hmo : p ∈ pyKeys old := dictGet_isSome_iff.mp (by rw [h1]; rfl)
  have hmn : p ∈ pyKeys new := dictGet_isSome_iff.mp (by rw [h2]; rfl)
  have hgo : hashGet old p = dictGet r1 "hash" := by simp [hashGet, h1]
  have hgn : hashGet new p = dictGet r2 "hash" := by simp [hashGet, h2]
  refine ⟨?_, ?_, ?_⟩
  · rintro ⟨hn1, hn2⟩
    refine ⟨?_, ?_, ?_⟩
    · rw [mem_viz_modified]
      rintro ⟨-, -, hne⟩
      exact hne (by rw [hgo, hgn, hn1, hn2])
    · rw [mem_viz_created]
      rintro ⟨-, habs⟩
      exact habs hmo
    · rw [mem_viz_deleted]
      rintro ⟨-, habs⟩
      exact habs hmn
  · rintro ⟨hn1, hs2⟩
    rw [mem_viz_modified]
    refine ⟨hmo, hmn, ?_⟩
    rw [hgo, hgn, hn1]
    intro habs
    rw [← habs] at hs2
    simp at hs2
  · rintro ⟨hs1, hn2⟩
    rw [mem_viz_modified]
    refine ⟨hmo, hmn, ?_⟩
    rw [hgo, hgn, hn2]
    intro habs
    rw [habs] at hs1
    simp at hs1

/-- Witness for C10 at concrete baselines: the shared path `a` has a record
with no `"hash"` field on the old side and a hashed record on the new side,
and is classified Modified. -/
theorem comparator_total_on_missing_hash_witness :
    "a" ∈ (visualize_integrity_check [("a", [])]
      [("a", [("hash", JVal.s "h")])]).modified :=
  (comparator_total_on_missing_hash [("a", [])] [("a", [("hash", JVal.s "h")])]
    "a" [] [("hash", JVal.s "h")] rfl rfl).2.1 ⟨rfl, rfl⟩

/-! ### Baseline store (`src/agent.py`, `save_baseline` / `load_baseline`) -/

/-- What `load_baseline` finds at the baseline path: a file whose content
`json.load` parses into a baseline dict, or a file whose content `json.load`
rejects with `JSONDecodeError`; `none` at the call site stands for no file. -/
inductive BaselineFileData where
  | parsed (d : Baseline)
  | unparseable
deriving Repr

/-- Embedding of `load_baseline` (`src/agent.py`, lines 67–84): a missing file yields the
empty dict (both the `exists()` guard and the `FileNotFoundError` handler),
a parseable file yields its parsed content unvalidated, and an unparseable
file raises, embedded as `Except.error`. -/
def load_baseline (file : Option BaselineFileData) : Except String Baseline :=
  match file with
  | none => Except.ok []
  | some (.parsed d) => Except.ok d
  | some .unparseable => Except.error "Failed to parse baseline file"

/-- Embedding of `save_baseline` (`src/agent.py`, lines 48–64): writes
`{path: asdict(entry) for path, entry in data.items()}` as JSON text; the
written file parses back to exactly that dict (`json` round-trips these
string/int/float scalars losslessly), so the stored content is that dict. -/
def save_baseline (data : Snapshot) : BaselineFileData :=
  .parsed (toBaseline data)

/-- Reading one stored record dict back into a `FileRecord`, field by field. -/
def decodeRecord (d : RecordDict) : Option FileRecord :=
  match dictGet d "path", dictGet d "hash", dictGet d "size", dictGet d "mtime" with
  | some (.s p), some (.s h), some (.i sz), some (.q mt) => some ⟨p, h, sz, mt⟩
  | _, _, _, _ => none

/-- C4: `load_baseline` on a missing baseline file returns the empty snapshot
without raising, while an existing but unparseable file raises a fatal error;
the two outcomes are distinct (corrupt is never treated as missing/empty). -/
theorem load_missing_vs_corrupt :
    load_baseline none = Except.ok [] ∧
    load_baseline (some .unparseable) = Except.error "Failed to parse baseline file" ∧
    load_baseline (some .unparseable) ≠ load_baseline none := by
  refine ⟨rfl, rfl, ?_⟩
  intro h
  exact Except.noConfusion h

/-- C6: saving a snapshot and loading it back from the same path succeeds and
yields the saved dict form, and every stored record decodes back to the
original record field-for-field (path, hash, size, mtime). -/
theorem save_load_roundtrip (s : Snapshot) (hnd : (pyKeys s).Nodup) :
    load_baseline (some (save_baseline s)) = Except.ok (toBaseline s) ∧
    ∀ p r, (p, r) ∈ s →
      ∃ d, dictGet (toBaseline s) p = some d ∧ decodeRecord d = some r := by
  refine ⟨rfl, ?_⟩
  intro p r hm
  refine ⟨asdict r, ?_, rfl⟩
  apply dictGet_of_mem_nodup
  · rw [pyKeys_toBaseline]
    exact hnd
  · exact List.mem_map_of_mem (fun pr => (pr.1, asdict pr.2)) hm

/-- A concrete two-file snapshot (non-integral mtime included). -/
def sampleSnapshot : Snapshot :=
  [("a.txt", ⟨"a.txt", "h1", 3, 5⟩), ("b.txt", ⟨"b.txt", "h2", 7, (11 : Rat) / 2⟩)]

/-- Witness for C6 at a concrete snapshot. -/
theorem save_load_roundtrip_witness :
    load_baseline (some (save_baseline sampleSnapshot)) =
      Except.ok (toBaseline sampleSnapshot) ∧
    ∀ p r, (p, r) ∈ sampleSnapshot →
      ∃ d, dictGet (toBaseline sampleSnapshot) p = some d ∧ decodeRecord d = some r :=
  save_load_roundtrip sampleSnapshot (by decide)

/-! ### Check flow (`src/agent.py`, `main`, `--check` branch, lines 300–369) -/

/-- The user-visible outcome of one `--check` run: the fatal-error message
(`✗ FATAL ERROR`), the missing-baseline rejection (`run with --init first`),
the secure report, or the breach report with its three path lists. -/
inductive CheckOutcome where
  | fatalError (msg : String)
  | missingBaseline
  | secure
  | breach (modified created deleted : List String)
deriving DecidableEq, Repr

/-- One `--check` run: the process exit code, the reported outcome, and the
list of paths that were handed to snapshot building (empty when the run ends
before hashing starts). -/
structure CheckRun where
  exitCode : Nat
  outcome : CheckOutcome
  scannedPaths : List String
deriving DecidableEq, Repr

/-- Modelled from the spec: `engine/integrity_engine.py`
(`compare_baselines`) is not under `src/`. Per §4.4 and §6 it returns the
delta as three path lists keyed `MODIFIED` / `CREATED` / `DELETED`:
Modified = paths in both with differing content hash, Created = paths only in
the new snapshot, Deleted = paths only in the old one, each sorted. -/
structure DeltaReport where
  MODIFIED : List String
  CREATED : List String
  DELETED : List String
deriving DecidableEq, Repr

/-- Modelled from the spec: the comparator contract of §4.4 (the same
classification the in-repo comparator `visualize_integrity_check` computes). -/
def compare_baselines (old_baseline new_baseline : Baseline) : DeltaReport :=
  let v := visualize_integrity_check old_baseline new_baseline
  ⟨v.modified, v.created, v.deleted⟩

/-- The `--check` branch of `main` (`src/agent.py`): load the baseline
(corrupt → fatal), reject an empty/missing baseline before discovery, run
discovery (failure → fatal), build the fresh snapshot (failure → fatal),
serialize it with `asdict`, compare, and report: exit 0 on an empty delta,
exit 1 otherwise (`report_integrity_results` returns whether the total change
count is zero), exit 1 on every fatal error. `discovery` stands for
`config_engine.get_file_list` and `scan` for `baseline_engine.create_baseline`,
both external to the flow; the flow is modelled on their outcomes. -/
def checkFlow (baselineFile : Option BaselineFileData)
    (discovery : Except String (List String))
    (scan : List String → Except String Snapshot) : CheckRun :=
  match load_baseline baselineFile with
  | .error e => ⟨1, .fatalError e, []⟩
  | .ok old_baseline =>
    if old_baseline.isEmpty then ⟨1, .missingBaseline, []⟩
    else
      match discovery with
      | .error e => ⟨1, .fatalError e, []⟩
      | .ok files_to_scan =>
        match scan files_to_scan with
        | .error e => ⟨1, .fatalError e, files_to_scan⟩
        | .ok new_baseline_raw =>
          let results := compare_baselines old_baseline (toBaseline new_baseline_raw)
          if results.MODIFIED.length + results.CREATED.length + results.DELETED.length = 0
          then ⟨0, .secure, files_to_scan⟩
          else ⟨1, .breach results.MODIFIED results.CREATED results.DELETED, files_to_scan⟩

/-- C5: when the loaded baseline is missing or empty, the check flow is
rejected with the missing-baseline failure whatever discovery and scanning
would return: no path is handed to hashing and no fresh snapshot is built
(the result does not depend on `discovery` or `scan` at all). -/
theorem check_rejects_empty_baseline (baselineFile : Option BaselineFileData)
    (h : baselineFile = none ∨ baselineFile = some (.parsed []))
    (discovery : Except String (List String))
    (scan : List String → Except String Snapshot) :
    checkFlow baselineFile discovery scan = ⟨1, .missingBaseline, []⟩ := by
  rcases h with h | h <;> subst h <;> rfl

/-- Witness for C5: no baseline file at all, with discovery and scanning that
would succeed, still ends in the missing-baseline rejection with nothing
scanned. -/
theorem check_rejects_empty_baseline_witness :
    checkFlow none (Except.ok ["a.txt"])
      (fun _ => Except.ok sampleSnapshot) = ⟨1, .missingBaseline, []⟩ :=
  check_rejects_empty_baseline none (Or.inl rfl) (Except.ok ["a.txt"])
    (fun _ => Except.ok sampleSnapshot)

/-- A one-file baseline already on disk, for concrete check runs. -/
def baselineA : Baseline := [("a.txt", asdict ⟨"a.txt", "h1", 1, 0⟩)]

/-- A scan whose single file comes back with a different content hash. -/
def scanChanged : List String → Except String Snapshot :=
  fun _ => Except.ok [("a.txt", ⟨"a.txt", "h2", 1, 0⟩)]

/-- A scan that fails (unreadable file aborts `create_baseline`). -/
def scanFailing : List String → Except String Snapshot :=
  fun _ => Except.error "read error"

/-- C9 counterexample: against the same stored baseline, a run whose scan
fails fatally and a run that finds a breach both report exit code 1, so the
fatal-error outcome is not distinct from the breach outcome in the result
code the caller receives. -/
theorem check_fatal_breach_same_exit_code :
    (checkFlow (some (.parsed baselineA)) (Except.ok ["a.txt"]) scanFailing).outcome
        = .fatalError "read error" ∧
    (checkFlow (some (.parsed baselineA)) (Except.ok ["a.txt"]) scanChanged).outcome
        = .breach ["a.txt"] [] [] ∧
    (checkFlow (some (.parsed baselineA)) (Except.ok ["a.txt"]) scanFailing).exitCode = 1 ∧
    (checkFlow (some (.parsed baselineA)) (Except.ok ["a.txt"]) scanChanged).exitCode = 1 := by
  refine ⟨rfl, ?_, rfl, ?_⟩ <;> decide

/-- C9 amended: the check flow separates a successful secure check (exit
code 0) from every other outcome (exit code 1); breach, fatal error and the
missing-baseline rejection all share exit code 1 and are told apart only by
the reported outcome, not by the exit code. -/
theorem check_exit_code_semantics (baselineFile : Option BaselineFileData)
    (discovery : Except String (List String))
    (scan : List String → Except String Snapshot) :
    ((checkFlow baselineFile discovery scan).exitCode = 0 ↔
        (checkFlow baselineFile discovery scan).outcome = .secure) ∧
    ((checkFlow baselineFile discovery scan).exitCode = 0 ∨
        (checkFlow baselineFile discovery scan).exitCode = 1) := by
  unfold checkFlow
  rcases load_baseline baselineFile with e | old_baseline
  · simp
  · by_cases he : old_baseline.isEmpty
    · simp [he]
    · rcases discovery with e | files
      · simp [he]
      · rcases hscan : scan files with e | snap
        · simp [he, hscan]
        · simp only [he, if_false, hscan]
          by_cases hz : (compare_baselines old_baseline (toBaseline snap)).MODIFIED.length +
              (compare_baselines old_baseline (toBaseline snap)).CREATED.length +
              (compare_baselines old_baseline (toBaseline snap)).DELETED.length = 0
          · simp [hz]
          · simp [hz]

/-! ### Live aggregator (`src/live_monitor.py`, `AegisFileWatcher`) -/

/-- The classification vocabulary of a logged live event (the `'type'` string
of the event dict). -/
inductive EventKind where
  | MODIFIED
  | CREATED
  | DELETED
deriving DecidableEq, Repr

/-- One entry of the watcher's event log (the dict appended by `log_event`);
`time` is the formatted wall-clock string, passed in explicitly here. -/
structure ChangeEvent where
  time : String
  type : EventKind
  file : String
  path : String
deriving DecidableEq, Repr

/-- Embedding of `Path(filepath).name`: the last `/`-separated component. -/
def pathName (filepath : String) : String := (filepath.splitOn "/").getLastD ""

/-- Embedding of `self.max_events`. -/
def max_events : Nat := 50

/-- The event dict `log_event` builds from a notification. -/
def mkChangeEvent (now : String) (event_type : EventKind) (filepath : String) :
    ChangeEvent :=
  ⟨now, event_type, pathName filepath, filepath⟩

/-- Embedding of `AegisFileWatcher.log_event` (`src/live_monitor.py`, lines 41–52): append
the event dict, then `pop(0)` once when the log length exceeds `max_events`. -/
def log_event (events : List ChangeEvent) (now : String) (event_type : EventKind)
    (filepath : String) : List ChangeEvent :=
  let appended := events ++ [mkChangeEvent now event_type filepath]
  if max_events < appended.length then appended.drop 1 else appended

/-- A raw watchdog notification as the handlers see it. -/
structure RawEvent where
  is_directory : Bool
  src_path : String
deriving DecidableEq, Repr

/-- Embedding of `on_modified` / `on_created` / `on_deleted` (`src/live_monitor.py`,
lines 29–39): the handler watchdog dispatches for `kind` logs the event with
that kind unless the notification is directory-level, in which case the log
is left alone. -/
def on_event (events : List ChangeEvent) (now : String) (kind : EventKind)
    (event : RawEvent) : List ChangeEvent :=
  if event.is_directory then events else log_event events now kind event.src_path

/-- One timestamped raw notification fed to the watcher. -/
structure Arrival where
  now : String
  kind : EventKind
  event : RawEvent
deriving DecidableEq, Repr

/-- A whole monitoring session: the watcher starts with an empty log and
handles each arriving notification in order. -/
def run_watcher (arrivals : List Arrival) : List ChangeEvent :=
  arrivals.foldl (fun log a => on_event log a.now a.kind a.event) []

/-- Appending one already-built event to the capped log (what `log_event`
does to the log once the event dict is built). -/
def pushEvent (events : List ChangeEvent) (e : ChangeEvent) : List ChangeEvent :=
  let appended := events ++ [e]
  if max_events < appended.length then appended.drop 1 else appended

theorem log_event_eq_pushEvent (events : List ChangeEvent) (now : String)
    (event_type : EventKind) (filepath : String) :
    log_event events now event_type filepath =
      pushEvent events (mkChangeEvent now event_type filepath) := rfl

theorem foldl_pushEvent_drop (es : List ChangeEvent) :
    es.foldl pushEvent [] = es.drop (es.length - max_events) := by
  have hm : max_events = 50 := rfl
  induction es using List.reverseRecOn with
  | nil => rfl
  | append_singleton es e ih =>
    rw [List.foldl_append, List.foldl_cons, List.foldl_nil, ih]
    unfold pushEvent
    simp only [List.length_append, List.length_singleton]
    by_cases hn : es.length < max_events
    · have h0 : es.length - max_events = 0 := by omega
      have h1 : es.length + 1 - max_events = 0 := by omega
      rw [h0, List.drop_zero, if_neg (by omega), h1, List.drop_zero]
    · have hlen : (es.drop (es.length - max_events)).length = max_events := by
        rw [List.length_drop]
        omega
      rw [if_pos (by rw [hlen]; omega),
        List.drop_append_of_le_length (by rw [hlen]; omega),
        List.drop_drop,
        List.drop_append_of_le_length (by omega : es.length + 1 - max_events ≤ es.length)]
      have harith : es.length - max_events + 1 = es.length + 1 - max_events := by omega
      rw [harith]

theorem run_watcher_files_eq_fold (arrivals : List Arrival)
    (h : ∀ a ∈ arrivals, a.event.is_directory = false) :
    run_watcher arrivals =
      (arrivals.map (fun a => mkChangeEvent a.now a.kind a.event.src_path)).foldl
        pushEvent [] := by
  rw [run_watcher]
  generalize ([] : List ChangeEvent) = init
  induction arrivals generalizing init with
  | nil => rfl
  | cons a as ih =>
    rw [List.foldl_cons, List.map_cons, List.foldl_cons]
    have ha : a.event.is_directory = false := h a (List.mem_cons_self a as)
    rw [show on_event init a.now a.kind a.event =
        pushEvent init (mkChangeEvent a.now a.kind a.event.src_path) from by
      rw [on_event, ha, if_neg Bool.false_ne_true, log_event_eq_pushEvent]]
    exact ih (fun x hx => h x (List.mem_cons_of_mem a hx)) _

/-- C3: after any sequence of regular-file notifications, the event log holds
the min(total, 50) most recently appended events, in arrival order with the
oldest evicted first — in particular it never exceeds 50 entries. -/
theorem aggregator_bounded_fifo (arrivals : List Arrival)
    (h : ∀ a ∈ arrivals, a.event.is_directory = false) :
    run_watcher arrivals =
      (arrivals.map (fun a => mkChangeEvent a.now a.kind a.event.src_path)).drop
        (arrivals.length - max_events) ∧
    (run_watcher arrivals).length = min arrivals.length max_events := by
  have hd := foldl_pushEvent_drop
    (arrivals.map (fun a => mkChangeEvent a.now a.kind a.event.src_path))
  rw [List.length_map] at hd
  have hr := (run_watcher_files_eq_fold arrivals h).trans hd
  refine ⟨hr, ?_⟩
  rw [hr, List.length_drop, List.length_map]
  omega

/-- Scenario E: sixty regular-file notifications, numbered 1–60 in their
timestamps and paths. -/
def scenarioE : List Arrival :=
  (List.range 60).map (fun i =>
    ⟨toString (i + 1), .MODIFIED, ⟨false, "f" ++ toString (i + 1)⟩⟩)

/-- Witness for C3 on Scenario E: after 60 notifications the log is exactly
the last 50 of the 60 events (notifications #11–#60) in arrival order. -/
theorem aggregator_bounded_fifo_witness :
    run_watcher scenarioE =
      (scenarioE.map (fun a => mkChangeEvent a.now a.kind a.event.src_path)).drop
        (scenarioE.length - max_events) ∧
    (run_watcher scenarioE).length = min scenarioE.length max_events :=
  aggregator_bounded_fifo scenarioE (by decide)

/-- C7: a directory-level notification leaves the event log unchanged; a
regular-file notification appends exactly one entry, whose kind is the
dispatched handler's kind and whose path is the notification's path (the
oldest entry is evicted when the append would exceed the capacity). -/
theorem aggregator_notification_handling (events : List ChangeEvent)
    (now : String) (kind : EventKind) (event : RawEvent) :
    (event.is_directory = true → on_event events now kind event = events) ∧
    (event.is_directory = false →
      on_event events now kind event =
        if max_events < events.length + 1
        then (events ++ [mkChangeEvent now kind event.src_path]).drop 1
        else events ++ [mkChangeEvent now kind event.src_path]) ∧
    (mkChangeEvent now kind event.src_path).type = kind ∧
    (mkChangeEvent now kind event.src_path).path = event.src_path := by
  refine ⟨fun h => by rw [on_event, h, if_pos rfl], fun h => ?_, rfl, rfl⟩
  rw [on_event, h, if_neg Bool.false_ne_true, log_event]
  simp only [List.length_append, List.length_singleton]


/-! ### Demo hashing loop (`src/visualizer.py`, `animate_hashing_process`) -/

/-- What the filesystem yields for one path inside the hashing loop: `none`
when `os.stat`, `open` or a chunk read raises, otherwise the observed size and
mtime together with the BLAKE3 hex digest of the bytes read (the hash library
is an external collaborator, so the digest of the content is an input). -/
structure ScanOutcome where
  size : Int
  mtime : Rat
  hexHash : String
deriving DecidableEq, Repr

/-- Embedding of `d[k] = v` on a Python dict: replace the value in place when the key
exists, append the pair otherwise. -/
def dictSet {α : Type} (d : PyDict α) (k : String) (v : α) : PyDict α :=
  if d.any (fun p => p.1 == k) then d.map (fun p => if p.1 == k then (k, v) else p)
  else d ++ [(k, v)]

/-- The state of the hashing loop: the baseline built so far and the paths
whose processing raised (for which an error line was printed). -/
structure HashRun where
  baseline : Baseline
  printedErrors : List String
deriving DecidableEq, Repr

/-- The record dict `baseline[filepath] = ...` stores for one hashed file. -/
def scanRecord (filepath : String) (entry : ScanOutcome) : RecordDict :=
  [("path", .s filepath), ("hash", .s entry.hexHash),
   ("size", .i entry.size), ("mtime", .q entry.mtime)]

/-- One iteration of the hashing loop over `filepath`: a successful
stat+read+hash stores the record dict under the path; any failure lands in
the `except` clause, which prints the error and `continue`s. -/
def hashStep (fs : String → Option ScanOutcome) (st : HashRun) (filepath : String) :
    HashRun :=
  match fs filepath with
  | some entry =>
    { st with baseline := dictSet st.baseline filepath (scanRecord filepath entry) }
  | none => { st with printedErrors := st.printedErrors ++ [filepath] }

/-- Embedding of `animate_hashing_process` (`src/visualizer.py`, lines 84–162), stripped of
the rendering, progress and timing code: the per-file loop over the given
paths. The loop always runs to completion and returns the baseline it built. -/
def animate_hashing_process (files : List String) (fs : String → Option ScanOutcome) :
    HashRun :=
  files.foldl (hashStep fs) ⟨[], []⟩

/-- A filesystem on which every access fails. -/
def unreadableFs : String → Option ScanOutcome := fun _ => none

/-- C8 counterexample: scanning the single, unreadable file `a.txt` does not
fail the scan — the loop returns normally with a baseline that omits the file,
and only a printed error line records the failure. -/
theorem scan_unreadable_skipped_counterexample :
    animate_hashing_process ["a.txt"] unreadableFs = ⟨[], ["a.txt"]⟩ := by decide

theorem mem_pyKeys_dictSet {α : Type} {d : PyDict α} {k : String} {v : α} {p : String} :
    p ∈ pyKeys (dictSet d k v) ↔ p ∈ pyKeys d ∨ p = k := by
  rw [dictSet]
  by_cases h : d.any (fun q => q.1 == k)
  · rw [if_pos h]
    rw [List.any_eq_true] at h
    obtain ⟨a, ha, hak⟩ := h
    rw [beq_iff_eq] at hak
    have hkmem : k ∈ pyKeys d := hak ▸ List.mem_map_of_mem Prod.fst ha
    have hkeys : pyKeys (d.map (fun q => if q.1 == k then (k, v) else q)) = pyKeys d := by
      rw [pyKeys, pyKeys, List.map_map]
      apply List.map_congr_left
      intro b hb
      by_cases hbk : b.1 == k
      · simp only [Function.comp_apply, if_pos hbk]
        exact (eq_of_beq hbk).symm
      · simp only [Function.comp_apply, if_neg hbk]
    rw [hkeys]
    constructor
    · exact Or.inl
    · rintro (hp | rfl)
      · exact hp
      · exact hkmem
  · rw [if_neg h]
    simp [pyKeys]

theorem animate_loop_characterization (fs : String → Option ScanOutcome)
    (files : List String) (st : HashRun) :
    (files.foldl (hashStep fs) st).printedErrors
        = st.printedErrors ++ files.filter (fun p => (fs p).isNone) ∧
    ∀ p, p ∈ pyKeys (files.foldl (hashStep fs) st).baseline ↔
        p ∈ pyKeys st.baseline ∨ (p ∈ files ∧ (fs p).isSome = true) := by
  induction files generalizing st with
  | nil => simp
  | cons f rest ih =>
    rw [List.foldl_cons]
    rcases hf : fs f with _ | entry
    · rw [show hashStep fs st f = { st with printedErrors := st.printedErrors ++ [f] } from
        by rw [hashStep, hf]]
      obtain ⟨ih1, ih2⟩ := ih { st with printedErrors := st.printedErrors ++ [f] }
      refine ⟨?_, ?_⟩
      · rw [ih1]
        simp [List.filter_cons, hf, List.append_assoc]
      · intro p
        rw [ih2 p]
        constructor
        · rintro (hb | hmem)
          · exact Or.inl hb
          · exact Or.inr ⟨List.mem_cons_of_mem f hmem.1, hmem.2⟩
        · rintro (hb | ⟨hmem, hsome⟩)
          · exact Or.inl hb
          · rcases List.mem_cons.mp hmem with rfl | hmem2
            · rw [hf] at hsome
              exact absurd hsome (by simp)
            · exact Or.inr ⟨hmem2, hsome⟩
    · rw [show hashStep fs st f =
          { st with baseline := dictSet st.baseline f (scanRecord f entry) } from
        by rw [hashStep, hf]]
      obtain ⟨ih1, ih2⟩ :=
        ih { st with baseline := dictSet st.baseline f (scanRecord f entry) }
      refine ⟨?_, ?_⟩
      · rw [ih1]
        simp [List.filter_cons, hf]
      · intro p
        rw [ih2 p]
        simp only [mem_pyKeys_dictSet]
        constructor
        · rintro ((hb | rfl) | hmem)
          · exact Or.inl hb
          · exact Or.inr ⟨List.mem_cons_self _ _, by rw [hf]; rfl⟩
          · exact Or.inr ⟨List.mem_cons_of_mem f hmem.1, hmem.2⟩
        · rintro (hb | ⟨hmem, hsome⟩)
          · exact Or.inl (Or.inl hb)
          · rcases List.mem_cons.mp hmem with rfl | hmem2
            · exact Or.inl (Or.inr rfl)
            · exact Or.inr ⟨hmem2, hsome⟩

/-- C8 amended: a missing or unreadable file never aborts the demo hashing
scan and never surfaces an error to the caller; the failure is caught, an
error line is printed, the file is skipped and the loop continues, so the
printed error lines name exactly the failing paths in scan order and the
produced baseline holds exactly the readable files. -/
theorem scan_skip_and_warn (files : List String) (fs : String → Option ScanOutcome) :
    (animate_hashing_process files fs).printedErrors
        = files.filter (fun p => (fs p).isNone) ∧
    ∀ p, p ∈ pyKeys (animate_hashing_process files fs).baseline ↔
        p ∈ files ∧ (fs p).isSome = true := by
  obtain ⟨h1, h2⟩ := animate_loop_characterization fs files ⟨[], []⟩
  rw [animate_hashing_process]
  refine ⟨by simpa using h1, fun p => ?_⟩
  rw [h2 p]
  simp [pyKeys]

end Aegis
